import Mathlib

/-!
Shallow embedding of the PerryOps LLM pipeline core
(src/LLM/src/guideline_extractor.py, src/LLM/src/compliance_checker.py,
src/LLM/src/action_generator.py, src/LLM/src/bedrock_client.py,
src/LLM/utils/datetime_utils.py, src/LLM/datetime_subtract_tool.py),
together with theorems settling the frozen claims about the
natural-language specification.

Conventions: Python floats become rationals; Python strings become Lean
strings over their character lists; Python datetime values become an
integral count of minutes since 1970-01-01 00:00 (the code never produces
nonzero seconds or microseconds); Python None results become Option.none;
JSON payloads become the inductive Json below.
-/

set_option maxHeartbeats 2000000

attribute [local semireducible] Rat.add Rat.sub Rat.mul Rat.inv Rat.ofScientific

/-! Basic character and string helpers mirroring the Python builtins the
code relies on (str.strip, str.lower, str.startswith, substring tests). -/

def lbrace : Char := Char.ofNat 123

def rbrace : Char := Char.ofNat 125

def lbrack : Char := '['

def rbrack : Char := ']'

def isPyWs (c : Char) : Bool :=
  c = ' ' || c = '\t' || c = '\n' || c = '\r' || c = Char.ofNat 11 || c = Char.ofNat 12

def pyStripL (cs : List Char) : List Char :=
  ((cs.dropWhile isPyWs).reverse.dropWhile isPyWs).reverse

def pyStrip (s : String) : String := String.mk (pyStripL s.toList)

def stripTicksL (cs : List Char) : List Char :=
  ((cs.dropWhile (· = '`')).reverse.dropWhile (· = '`')).reverse

def toLowerC (c : Char) : Char :=
  if 'A' ≤ c ∧ c ≤ 'Z' then Char.ofNat (c.toNat + 32) else c

def toUpperC (c : Char) : Char :=
  if 'a' ≤ c ∧ c ≤ 'z' then Char.ofNat (c.toNat - 32) else c

def pyLower (s : String) : String := String.mk (s.toList.map toLowerC)

def leadsWith : List Char → List Char → Bool
  | [], _ => true
  | _ :: _, [] => false
  | p :: ps, c :: cs => p = c && leadsWith ps cs

def startsWithS (s pre : String) : Bool := leadsWith pre.toList s.toList

def endsWithS (s suf : String) : Bool := leadsWith suf.toList.reverse s.toList.reverse

def subListIn (needle : List Char) : List Char → Bool
  | [] => leadsWith needle []
  | c :: cs => leadsWith needle (c :: cs) || subListIn needle cs

def containsSub (hay needle : String) : Bool := subListIn needle.toList hay.toList

/-- dropLit consumes an exact literal from the front of a character list. -/
def dropLit : List Char → List Char → Option (List Char)
  | [], cs => some cs
  | _ :: _, [] => none
  | p :: ps, c :: cs => if p = c then dropLit ps cs else none

/-- dropLitCI consumes a literal (given in lower case) case-insensitively. -/
def dropLitCI : List Char → List Char → Option (List Char)
  | [], cs => some cs
  | _ :: _, [] => none
  | p :: ps, c :: cs => if p = toLowerC c then dropLitCI ps cs else none

def isDigitC (c : Char) : Bool := '0' ≤ c && c ≤ '9'

def isAsciiLetter (c : Char) : Bool := ('a' ≤ c && c ≤ 'z') || ('A' ≤ c && c ≤ 'Z')

def digitsVal (ds : List Char) : ℕ := ds.foldl (fun a c => a * 10 + (c.toNat - 48)) 0

def padZero (w : ℕ) (n : ℕ) : String :=
  let s := Nat.repr n
  String.mk (List.replicate (w - s.length) '0') ++ s

/-! JSON values. Model of the payloads handled by json.loads / json dicts
in the Python code. Objects are association lists in insertion order. -/

inductive Json where
  | null : Json
  | bool : Bool → Json
  | num : ℚ → Json
  | str : String → Json
  | arr : List Json → Json
  | obj : List (String × Json) → Json

abbrev JDict := List (String × Json)

/-- lookupField is Python dict.get on our association-list objects. -/
def lookupField : JDict → String → Option Json
  | [], _ => none
  | (k2, v) :: rest, k => if k2 = k then some v else lookupField rest k

def hasField (fs : JDict) (k : String) : Bool := fs.any (fun p => p.1 = k)

/-- setObjField is Python dict assignment d[k] = v: replace in place when
the key exists (keeping its position), otherwise append. -/
def setObjField (fs : JDict) (k : String) (v : Json) : JDict :=
  if hasField fs k then fs.map (fun p => if p.1 = k then (k, v) else p)
  else fs ++ [(k, v)]

/-- setDefaultField is Python dict.setdefault: only add when missing. -/
def setDefaultField (fs : JDict) (k : String) (v : Json) : JDict :=
  if hasField fs k then fs else fs ++ [(k, v)]

/-- pyFalsy mirrors Python truthiness on JSON payloads. -/
def pyFalsy : Json → Bool
  | .null => true
  | .bool b => !b
  | .num q => q = 0
  | .str s => s = ""
  | .arr xs => xs.isEmpty
  | .obj fs => fs.isEmpty

/-! A model of Python json.loads on the RFC 8259 grammar (strict mode, the
default used by the code). Whitespace is the JSON whitespace set. The
special non-RFC literals NaN and Infinity, which appear in no payload the
pipeline handles, are not modelled. Parsing is fueled; the fuel passed by
pyLoads dominates any possible nesting depth of its input. -/

def isJsonWs (c : Char) : Bool := c = ' ' || c = '\t' || c = '\n' || c = '\r'

def skipJsonWs (cs : List Char) : List Char := cs.dropWhile isJsonWs

def hexVal (c : Char) : Option ℕ :=
  if '0' ≤ c ∧ c ≤ '9' then some (c.toNat - 48)
  else if 'a' ≤ c ∧ c ≤ 'f' then some (c.toNat - 87)
  else if 'A' ≤ c ∧ c ≤ 'F' then some (c.toNat - 55)
  else none

/-- parseJString reads the body of a JSON string after the opening quote,
returning the decoded characters and the input after the closing quote. -/
def parseJString : List Char → Option (List Char × List Char)
  | [] => none
  | c :: rest =>
    if c = '"' then some ([], rest)
    else if c = '\\' then
      match rest with
      | [] => none
      | e :: rest2 =>
        if e = '"' then (parseJString rest2).map (fun p => ('"' :: p.1, p.2))
        else if e = '\\' then (parseJString rest2).map (fun p => ('\\' :: p.1, p.2))
        else if e = '/' then (parseJString rest2).map (fun p => ('/' :: p.1, p.2))
        else if e = 'b' then (parseJString rest2).map (fun p => (Char.ofNat 8 :: p.1, p.2))
        else if e = 'f' then (parseJString rest2).map (fun p => (Char.ofNat 12 :: p.1, p.2))
        else if e = 'n' then (parseJString rest2).map (fun p => ('\n' :: p.1, p.2))
        else if e = 'r' then (parseJString rest2).map (fun p => ('\r' :: p.1, p.2))
        else if e = 't' then (parseJString rest2).map (fun p => ('\t' :: p.1, p.2))
        else if e = 'u' then
          match rest2 with
          | h1 :: h2 :: h3 :: h4 :: rest3 =>
            match hexVal h1, hexVal h2, hexVal h3, hexVal h4 with
            | some a, some b, some c2, some d =>
              (parseJString rest3).map
                (fun p => (Char.ofNat (((a * 16 + b) * 16 + c2) * 16 + d) :: p.1, p.2))
            | _, _, _, _ => none
          | _ => none
        else none
    else if c.toNat < 32 then none
    else (parseJString rest).map (fun p => (c :: p.1, p.2))

/-- parseJNumber follows the json number grammar
-?(0|[1-9][0-9]*)(.[0-9]+)?([eE][-+]?[0-9]+)? and yields a rational. -/
def parseJNumber (cs : List Char) : Option (ℚ × List Char) :=
  let sign : ℚ × List Char := if cs.head? = some '-' then (-1, cs.drop 1) else (1, cs)
  let cs1 := sign.2
  let ipart : Option (List Char × List Char) :=
    match cs1 with
    | [] => none
    | c :: rest =>
      if c = '0' then some ([c], rest)
      else if isDigitC c then some (c :: rest.takeWhile isDigitC, rest.dropWhile isDigitC)
      else none
  match ipart with
  | none => none
  | some (ids, cs2) =>
    let fpart : List Char × List Char :=
      match cs2 with
      | '.' :: r =>
        if (r.takeWhile isDigitC).isEmpty then ([], cs2)
        else (r.takeWhile isDigitC, r.dropWhile isDigitC)
      | _ => ([], cs2)
    let cs3 := fpart.2
    let epart : Option ℤ × List Char :=
      match cs3 with
      | e :: r =>
        if e = 'e' ∨ e = 'E' then
          match r with
          | '+' :: r2 =>
            if (r2.takeWhile isDigitC).isEmpty then (none, cs3)
            else (some (digitsVal (r2.takeWhile isDigitC) : ℤ), r2.dropWhile isDigitC)
          | '-' :: r2 =>
            if (r2.takeWhile isDigitC).isEmpty then (none, cs3)
            else (some (-(digitsVal (r2.takeWhile isDigitC) : ℤ)), r2.dropWhile isDigitC)
          | _ =>
            if (r.takeWhile isDigitC).isEmpty then (none, cs3)
            else (some (digitsVal (r.takeWhile isDigitC) : ℤ), r.dropWhile isDigitC)
        else (none, cs3)
      | [] => (none, cs3)
    let fracDigits := fpart.1
    let mantissa : ℚ :=
      (digitsVal ids : ℚ) + (digitsVal fracDigits : ℚ) / ((10 : ℚ) ^ fracDigits.length)
    let scaled : ℚ :=
      match epart.1 with
      | some e => if 0 ≤ e then mantissa * (10 : ℚ) ^ e.toNat else mantissa / (10 : ℚ) ^ (-e).toNat
      | none => mantissa
    some (sign.1 * scaled, epart.2)

mutual

def parseJValue : ℕ → List Char → Option (Json × List Char)
  | 0, _ => none
  | fuel + 1, cs =>
    match cs with
    | [] => none
    | c :: rest =>
      if c = 't' then (dropLit ['r', 'u', 'e'] rest).map (fun r => (Json.bool true, r))
      else if c = 'f' then (dropLit ['a', 'l', 's', 'e'] rest).map (fun r => (Json.bool false, r))
      else if c = 'n' then (dropLit ['u', 'l', 'l'] rest).map (fun r => (Json.null, r))
      else if c = '"' then (parseJString rest).map (fun p => (Json.str (String.mk p.1), p.2))
      else if c = lbrack then parseJElems fuel (skipJsonWs rest)
      else if c = lbrace then parseJMembers fuel (skipJsonWs rest)
      else (parseJNumber cs).map (fun p => (Json.num p.1, p.2))

def parseJElems : ℕ → List Char → Option (Json × List Char)
  | 0, _ => none
  | fuel + 1, cs =>
    match cs with
    | [] => none
    | c :: rest =>
      if c = rbrack then some (Json.arr [], rest)
      else
        match parseJValue fuel cs with
        | none => none
        | some (v, r) => parseJElemsRest fuel [v] (skipJsonWs r)

def parseJElemsRest : ℕ → List Json → List Char → Option (Json × List Char)
  | 0, _, _ => none
  | fuel + 1, acc, cs =>
    match cs with
    | [] => none
    | c :: rest =>
      if c = rbrack then some (Json.arr acc, rest)
      else if c = ',' then
        match parseJValue fuel (skipJsonWs rest) with
        | none => none
        | some (v, r) => parseJElemsRest fuel (acc ++ [v]) (skipJsonWs r)
      else none

def parseJMembers : ℕ → List Char → Option (Json × List Char)
  | 0, _ => none
  | fuel + 1, cs =>
    match cs with
    | [] => none
    | c :: rest =>
      if c = rbrace then some (Json.obj [], rest)
      else if c = '"' then
        match parseJString rest with
        | none => none
        | some (key, r1) =>
          match skipJsonWs r1 with
          | ':' :: r2 =>
            match parseJValue fuel (skipJsonWs r2) with
            | none => none
            | some (v, r3) =>
              parseJMembersRest fuel (setObjField [] (String.mk key) v) (skipJsonWs r3)
          | _ => none
      else none

def parseJMembersRest : ℕ → JDict → List Char → Option (Json × List Char)
  | 0, _, _ => none
  | fuel + 1, acc, cs =>
    match cs with
    | [] => none
    | c :: rest =>
      if c = rbrace then some (Json.obj acc, rest)
      else if c = ',' then
        match skipJsonWs rest with
        | '"' :: r0 =>
          match parseJString r0 with
          | none => none
          | some (key, r1) =>
            match skipJsonWs r1 with
            | ':' :: r2 =>
              match parseJValue fuel (skipJsonWs r2) with
              | none => none
              | some (v, r3) =>
                parseJMembersRest fuel (setObjField acc (String.mk key) v) (skipJsonWs r3)
            | _ => none
        | _ => none
      else none

end

/-- pyLoads models json.loads: parse one value, then require only trailing
whitespace (otherwise json.loads raises Extra data and the callers treat
that as a failure). -/
def pyLoads (s : String) : Option Json :=
  let cs := skipJsonWs s.toList
  match parseJValue (2 * s.length + 8) cs with
  | some (v, rest) => if skipJsonWs rest = [] then some v else none
  | none => none

/-! Tolerant JSON extraction, two variants.

extractJsonCC embeds _extract_json from src/LLM/src/compliance_checker.py:
guard empty input, strip a surrounding markdown fence plus an optional
leading json tag, try a direct parse, then fall back to the substring from
the first opening brace to the LAST closing brace (str.rfind).

extractJsonBR embeds _extract_json from src/LLM/src/bedrock_client.py:
strip a surrounding fence (no json-tag handling), try a direct parse, then
fall back to brace-depth matching from the first opening brace, trying
only the first depth-zero candidate. -/

def idxOfFirst (cs : List Char) (c : Char) : Option ℕ := cs.findIdx? (· = c)

def idxOfLast (cs : List Char) (c : Char) : Option ℕ :=
  (cs.reverse.findIdx? (· = c)).map (fun i => cs.length - 1 - i)

def extractJsonCC (rawText : String) : Option Json :=
  if rawText = "" then none
  else
    let text0 := pyStrip rawText
    let text :=
      if startsWithS text0 "```" && endsWithS text0 "```" then
        let t := pyStrip (String.mk (stripTicksL text0.toList))
        if startsWithS (pyLower t) "json" then pyStrip (String.mk (t.toList.drop 4)) else t
      else text0
    match pyLoads text with
    | some v => some v
    | none =>
      match idxOfFirst text.toList lbrace, idxOfLast text.toList rbrace with
      | some a, some b =>
        if a < b then pyLoads (String.mk ((text.toList.drop a).take (b - a + 1))) else none
      | _, _ => none

/-- braceCandidate scans characters tracking brace depth and returns the
text up to and including the first closing brace that brings the running
depth to zero, as in the bedrock_client fallback loop. -/
def braceCandidate : List Char → ℤ → List Char → Option (List Char)
  | [], _, _ => none
  | c :: rest, depth, acc =>
    if c = lbrace then braceCandidate rest (depth + 1) (acc ++ [c])
    else if c = rbrace then
      if depth - 1 = 0 then some (acc ++ [c]) else braceCandidate rest (depth - 1) (acc ++ [c])
    else braceCandidate rest depth (acc ++ [c])

def extractJsonBR (text : String) : Option Json :=
  let t0 := pyStrip text
  let t :=
    if startsWithS t0 "```" && endsWithS t0 "```" then pyStrip (String.mk (stripTicksL t0.toList))
    else t0
  match pyLoads t with
  | some v => some v
  | none =>
    match idxOfFirst t.toList lbrace with
    | none => none
    | some start =>
      match braceCandidate (t.toList.drop start) 0 [] with
      | some cand => pyLoads (String.mk cand)
      | none => none

/-! Datetime model. A Python datetime built by this code always has zero
seconds and microseconds, so it is modelled as a count of minutes since
1970-01-01 00:00. daysFromCivil and civilFromDays are the standard
Gregorian conversions (Howard Hinnant's algorithm), which is what the
Python datetime arithmetic computes. -/

structure PyDateTime where
  minutes : ℤ
deriving DecidableEq

def daysFromCivil (y : ℤ) (m d : ℕ) : ℤ :=
  let y2 : ℤ := if m ≤ 2 then y - 1 else y
  let era : ℤ := Int.fdiv y2 400
  let yoe : ℤ := y2 - era * 400
  let mp : ℤ := if 2 < m then (m : ℤ) - 3 else (m : ℤ) + 9
  let doy : ℤ := Int.fdiv (153 * mp + 2) 5 + (d : ℤ) - 1
  let doe : ℤ := yoe * 365 + Int.fdiv yoe 4 - Int.fdiv yoe 100 + doy
  era * 146097 + doe - 719468

def civilFromDays (z : ℤ) : ℤ × ℕ × ℕ :=
  let z2 := z + 719468
  let era := Int.fdiv z2 146097
  let doe := z2 - era * 146097
  let yoe := Int.fdiv (doe - Int.fdiv doe 1461 + Int.fdiv doe 36524 - Int.fdiv doe 146096) 365
  let y := yoe + era * 400
  let doy := doe - (365 * yoe + Int.fdiv yoe 4 - Int.fdiv yoe 100)
  let mp := Int.fdiv (5 * doy + 2) 153
  let d := doy - Int.fdiv (153 * mp + 2) 5 + 1
  let m := if mp < 10 then mp + 3 else mp - 9
  (if m ≤ 2 then y + 1 else y, m.toNat, d.toNat)

/-- subtractTime embeds subtract_time from datetime_subtract_tool.py:
dt - timedelta(days=days, hours=hours, minutes=minutes). -/
def subtractTime (dt : PyDateTime) (days hours mins : ℤ) : PyDateTime :=
  ⟨dt.minutes - (days * 1440 + hours * 60 + mins)⟩

/-- atHour embeds dt.replace(hour=h, minute=0, second=0, microsecond=0). -/
def atHour (dt : PyDateTime) (h : ℤ) : PyDateTime :=
  ⟨Int.fdiv dt.minutes 1440 * 1440 + h * 60⟩

/-- isoformat embeds datetime.isoformat for the reachable values (zero
seconds and microseconds give the YYYY-MM-DDTHH:MM:SS form). -/
def isoformat (dt : PyDateTime) : String :=
  let day := Int.fdiv dt.minutes 1440
  let tod := (dt.minutes - day * 1440).toNat
  let c := civilFromDays day
  padZero 4 c.1.toNat ++ "-" ++ padZero 2 c.2.1 ++ "-" ++ padZero 2 c.2.2 ++ "T" ++
    padZero 2 (tod / 60) ++ ":" ++ padZero 2 (tod % 60) ++ ":00"

def isLeapYear (y : ℤ) : Bool :=
  y % 4 = 0 && (y % 100 ≠ 0 || y % 400 = 0)

def daysInMonth (y : ℤ) (m : ℕ) : ℕ :=
  if m = 1 then 31 else if m = 2 then (if isLeapYear y then 29 else 28)
  else if m = 3 then 31 else if m = 4 then 30 else if m = 5 then 31
  else if m = 6 then 30 else if m = 7 then 31 else if m = 8 then 31
  else if m = 9 then 30 else if m = 10 then 31 else if m = 11 then 30
  else if m = 12 then 31 else 0

/-- parseDateStr models strptime(s, "%Y-%m-%d"): up to four year digits,
a dash, up to two month digits, a dash, up to two day digits, end of
input, with calendar validation. Returns the civil day number. -/
def parseDateStr (s : String) : Option ℤ :=
  let cs := s.toList
  let yds := (cs.takeWhile isDigitC).take 4
  let r1 := cs.drop yds.length
  if yds.isEmpty then none
  else
    match r1 with
    | '-' :: r2 =>
      let mds := (r2.takeWhile isDigitC).take 2
      let r3 := r2.drop mds.length
      if mds.isEmpty then none
      else
        match r3 with
        | '-' :: r4 =>
          let dds := (r4.takeWhile isDigitC).take 2
          let r5 := r4.drop dds.length
          if dds.isEmpty ∨ r5 ≠ [] then none
          else
            let y : ℤ := (digitsVal yds : ℤ)
            let m := digitsVal mds
            let d := digitsVal dds
            if 1 ≤ y ∧ y ≤ 9999 ∧ 1 ≤ m ∧ m ≤ 12 ∧ 1 ≤ d ∧ d ≤ daysInMonth y m then
              some (daysFromCivil y m d)
            else none
        | _ => none
    | _ => none

/-- parseTimeStr models strptime(s, "%H:%M"): up to two hour digits, a
colon, up to two minute digits, end of input. Returns minutes into day. -/
def parseTimeStr (s : String) : Option ℕ :=
  let cs := s.toList
  let hds := (cs.takeWhile isDigitC).take 2
  let r1 := cs.drop hds.length
  if hds.isEmpty then none
  else
    match r1 with
    | ':' :: r2 =>
      let mds := (r2.takeWhile isDigitC).take 2
      let r3 := r2.drop mds.length
      if mds.isEmpty ∨ r3 ≠ [] then none
      else
        let h := digitsVal hds
        let m := digitsVal mds
        if h ≤ 23 ∧ m ≤ 59 then some (h * 60 + m) else none
    | _ => none

/-- SurgeryDetails carries the date and time fields of the structured
report's surgery_details dict. -/
structure SurgeryDetails where
  date : Option String
  time : Option String
deriving DecidableEq

/-- parseSurgeryDatetime embeds _parse_surgery_datetime from
src/LLM/utils/datetime_utils.py. -/
def parseSurgeryDatetime (sd : SurgeryDetails) : Option PyDateTime :=
  match sd.date with
  | none => none
  | some ds =>
    if ds = "" then none
    else
      match sd.time with
      | some ts =>
        if ts = "" then (parseDateStr ds).map (fun z => ⟨z * 1440⟩)
        else
          match parseDateStr ds, parseTimeStr ts with
          | some z, some t => some ⟨z * 1440 + (t : ℤ)⟩
          | _, _ => none
      | none => (parseDateStr ds).map (fun z => ⟨z * 1440⟩)

/-! Time-phrase resolver (src/LLM/utils/datetime_utils.py). The two
re.search patterns are embedded as explicit leftmost scanners. In the
pattern (\d+|[a-zA-Z-]+)\s+days?\s+(before|prior) neither the number
group (whose class excludes whitespace) nor the whitespace runs can
usefully backtrack, because shrinking either leaves a character of its own
class where the next pattern element demands the other class; so maximal
munch at each element is faithful to the regex engine. The optional s and
the unit alternation hours?|hrs?|hr are tried in regex preference order. -/

def numberWords : List (String × ℕ) :=
  [("zero", 0), ("one", 1), ("two", 2), ("three", 3), ("four", 4), ("five", 5),
   ("six", 6), ("seven", 7), ("eight", 8), ("nine", 9), ("ten", 10),
   ("eleven", 11), ("twelve", 12), ("thirteen", 13), ("fourteen", 14),
   ("fifteen", 15), ("sixteen", 16), ("seventeen", 17), ("eighteen", 18),
   ("nineteen", 19), ("twenty", 20), ("thirty", 30), ("forty", 40),
   ("fifty", 50), ("sixty", 60)]

def wordLookup (t : String) : Option ℕ :=
  (numberWords.find? (fun p => p.1 = t)).map (fun p => p.2)

/-- splitOnDash is Python str.split("-"), keeping empty parts. -/
def splitOnDash : List Char → List (List Char)
  | [] => [[]]
  | c :: cs =>
    if c = '-' then [] :: splitOnDash cs
    else
      match splitOnDash cs with
      | [] => [[c]]
      | p :: ps => (c :: p) :: ps

/-- toIntTok embeds _to_int: digits, a hyphenated two-word compound, or a
single number word. -/
def toIntTok (tok : String) : Option ℕ :=
  let t := pyLower (pyStrip tok)
  let cs := t.toList
  if t ≠ "" ∧ cs.all isDigitC then some (digitsVal cs)
  else
    let parts := splitOnDash cs
    if cs.contains '-' ∧ parts.length = 2 then
      match wordLookup (String.mk (parts.getD 0 [])), wordLookup (String.mk (parts.getD 1 [])) with
      | some a, some b => some (a + b)
      | _, _ => wordLookup t
    else wordLookup t

def isWordDashC (c : Char) : Bool := isAsciiLetter c || c = '-'

def isReWs (c : Char) : Bool :=
  c = ' ' || c = '\t' || c = '\n' || c = '\r' || c = Char.ofNat 11 || c = Char.ofNat 12

/-- takeRun1 splits off a nonempty maximal run of characters satisfying p. -/
def takeRun1 (p : Char → Bool) (cs : List Char) : Option (List Char × List Char) :=
  let r := cs.takeWhile p
  if r.isEmpty then none else some (r, cs.drop r.length)

def wsPlus (cs : List Char) : Option (List Char) :=
  (takeRun1 isReWs cs).map (fun p => p.2)

def beforeOrPrior (cs : List Char) : Bool :=
  leadsWith "before".toList cs || leadsWith "prior".toList cs

/-- daysTail matches \s+days?\s+(before|prior) at the front of its input;
the optional s is greedy with fallback. -/
def daysTail (cs : List Char) : Bool :=
  match wsPlus cs with
  | none => false
  | some cs1 =>
    match dropLit "day".toList cs1 with
    | none => false
    | some cs2 =>
      (match dropLit ['s'] cs2 with
       | some cs3 =>
         (match wsPlus cs3 with
          | some cs4 => beforeOrPrior cs4
          | none => false)
       | none => false) ||
      (match wsPlus cs2 with
       | some cs4 => beforeOrPrior cs4
       | none => false)

/-- hoursTail matches \s+(hours?|hrs?|hr)\s+(before|prior). -/
def hoursTail (cs : List Char) : Bool :=
  match wsPlus cs with
  | none => false
  | some cs1 =>
    ["hours", "hour", "hrs", "hr"].any (fun u =>
      match dropLit u.toList cs1 with
      | some cs2 =>
        (match wsPlus cs2 with
         | some cs3 => beforeOrPrior cs3
         | none => false)
      | none => false)

/-- numGroupThen takes the leading number group (digits, else the
letters-and-dash class) and checks the tail pattern after it. -/
def numGroupThen (tail : List Char → Bool) (cs : List Char) : Option (List Char) :=
  match takeRun1 isDigitC cs with
  | some (g, r) => if tail r then some g else none
  | none =>
    match takeRun1 isWordDashC cs with
    | some (g, r) => if tail r then some g else none
    | none => none

/-- searchGroup scans positions left to right, as re.search does, and
returns the first matched number group. -/
def searchGroup (tail : List Char → Bool) : List Char → Option String
  | [] => none
  | c :: rest =>
    match numGroupThen tail (c :: rest) with
    | some g => some (String.mk g)
    | none => searchGroup tail rest

/-- computeStopRest carries the containment and equality rules after both
numeric rules of compute_stop_time_datetime. -/
def computeStopRest (anchor : PyDateTime) (phraseL : String) : Option PyDateTime :=
  if containsSub phraseL "day of procedure" ∨ phraseL = "day of" ∨ phraseL = "day of surgery" then
    some (atHour anchor 0)
  else if containsSub phraseL "night before" then
    some (atHour (subtractTime anchor 1 0 0) 21)
  else if containsSub phraseL "morning of" then
    some (atHour anchor 8)
  else if containsSub phraseL "after midnight" ∨ phraseL = "midnight" ∨
      containsSub phraseL "fasting after midnight" then
    some (atHour anchor 0)
  else if phraseL = "continue" ∨ phraseL = "as usual" ∨ phraseL = "no change" then
    none
  else none

/-- computeStopTail carries the rule chain of compute_stop_time_datetime
after the days rule: hours rule, day-of, night-before, morning-of,
midnight, continue synonyms, otherwise none. -/
def computeStopTail (anchor : PyDateTime) (phraseL : String) : Option PyDateTime :=
  match searchGroup hoursTail phraseL.toList with
  | some tok =>
    match toIntTok tok with
    | some n => some (subtractTime anchor 0 (n : ℤ) 0)
    | none => computeStopRest anchor phraseL
  | none => computeStopRest anchor phraseL

/-- computeStopTimeDatetime embeds compute_stop_time_datetime from
src/LLM/utils/datetime_utils.py. -/
def computeStopTimeDatetime (sd : SurgeryDetails) (phrase : String) : Option PyDateTime :=
  if phrase = "" then none
  else
    let phraseL := pyLower (pyStrip phrase)
    match parseSurgeryDatetime sd with
    | none => none
    | some anchor =>
      match searchGroup daysTail phraseL.toList with
      | some tok =>
        match toIntTok tok with
        | some n => some (subtractTime anchor (n : ℤ) 0 0)
        | none => computeStopTail anchor phraseL
      | none => computeStopTail anchor phraseL

/-! Action generator (src/LLM/src/action_generator.py).

infer_medication_from_instruction uses two case-insensitive re.search
patterns, (?:using|use|with)\s+([A-Za-z0-9\-\s]{3,80}) and
apply\s+([A-Za-z0-9\-\s]{3,80}), then cuts the captured group at the
first clause boundary [.;,\n]|\b(before|after|prior|night|morning|
evening|day)\b (maxsplit one) and strips it. The captured class includes
whitespace, so when the greedy \s+ run leaves fewer than three class
characters the engine backtracks the whitespace run one character at a
time, each step donating one leading whitespace character to the group;
grpWithBacktrack models exactly that. -/

def isMedClassChar (c : Char) : Bool := isAsciiLetter c || isDigitC c || c = '-' || isReWs c

/-- grpWithBacktrack takes k whitespace characters then a greedy capped
run of the medication character class, retrying with shorter whitespace
while the group stays under the three-character minimum. -/
def grpWithBacktrack (cs : List Char) : ℕ → Option (List Char)
  | 0 => none
  | k + 1 =>
    let g := ((cs.drop (k + 1)).takeWhile isMedClassChar).take 80
    if 3 ≤ g.length then some g else grpWithBacktrack cs k

def medGroupAfterKey (cs : List Char) : Option (List Char) :=
  let w := (cs.takeWhile isReWs).length
  if w = 0 then none else grpWithBacktrack cs w

/-- medSearchFrom scans positions left to right for one of the given
keywords (case-insensitively, in alternation order) followed by
whitespace and a capturable group. -/
def medSearchFrom (keys : List String) : List Char → Option (List Char)
  | [] => none
  | c :: rest =>
    match keys.findSome? (fun k =>
        match dropLitCI (pyLower k).toList (c :: rest) with
        | some r => medGroupAfterKey r
        | none => none) with
    | some g => some g
    | none => medSearchFrom keys rest

def isWordChar (c : Char) : Bool := isAsciiLetter c || isDigitC c || c = '_'

def splitKeywords : List String :=
  ["before", "after", "prior", "night", "morning", "evening", "day"]

def isSplitPunct (c : Char) : Bool := c = '.' || c = ';' || c = ',' || c = '\n'

/-- boundaryKeywordAt decides whether one of the split keywords matches at
the front of rest, with prev the character just before it, honouring the
word boundaries of the pattern. -/
def boundaryKeywordAt (prev : Option Char) (rest : List Char) : Bool :=
  (match prev with
   | some p => !isWordChar p
   | none => true) &&
  splitKeywords.any (fun k =>
    match dropLitCI k.toList rest with
    | some r =>
      match r.head? with
      | some c => !isWordChar c
      | none => true
    | none => false)

/-- clauseCut models re.split with maxsplit one on the clause-boundary
pattern, returning the text before the first match. -/
def clauseCutGo (prev : Option Char) (acc : List Char) : List Char → List Char
  | [] => acc
  | c :: rest =>
    if isSplitPunct c then acc
    else if boundaryKeywordAt prev (c :: rest) then acc
    else clauseCutGo (some c) (acc ++ [c]) rest

def clauseCut (cs : List Char) : List Char := clauseCutGo none [] cs

/-- medCandidates collects the cleaned nonempty candidate from each of the
two patterns, in pattern order. -/
def medCandidates (text : String) : List String :=
  [medSearchFrom ["using", "use", "with"] text.toList,
   medSearchFrom ["apply"] text.toList].foldr
    (fun r acc =>
      match r with
      | some g =>
        let cleaned := pyStripL (clauseCut g)
        if cleaned ≠ [] then String.mk cleaned :: acc else acc
      | none => acc) []

def knownProducts : List String :=
  ["chlorhexidine", "hibiclens", "antibacterial soap", "antibacterial wash",
   "sage cloth", "surgical scrub"]

/-- pyIsLower models str.islower on ASCII text: at least one cased
character and no upper-case cased character. -/
def pyIsLower (s : String) : Bool :=
  s.toList.all (fun c => !('A' ≤ c && c ≤ 'Z')) &&
    s.toList.any (fun c => 'a' ≤ c && c ≤ 'z')

/-- pyTitle models str.title on ASCII text: the first letter of each
letter run is upper-cased, the rest lower-cased. -/
def pyTitleGo : Bool → List Char → List Char
  | _, [] => []
  | prevCased, c :: rest =>
    if isAsciiLetter c then
      (if prevCased then toLowerC c else toUpperC c) :: pyTitleGo true rest
    else c :: pyTitleGo false rest

def pyTitle (s : String) : String := String.mk (pyTitleGo false s.toList)

/-- firstVocab returns the first known product occurring as a substring of
the lower-cased instruction text. -/
def firstVocab (lowerText : String) : Option String :=
  knownProducts.find? (fun p => containsSub lowerText p)

/-- minByLen is Python min(candidates, key=len): the first candidate of
minimal length. -/
def minByLen (c : String) : List String → String
  | [] => c
  | x :: xs => if x.length < c.length then minByLen x xs else minByLen c xs

/-- inferMedication embeds infer_medication_from_instruction. The guard
for a missing or non-string argument is the empty-string case here;
inferMedicationJson handles the JSON-typed note field. -/
def inferMedication (text : String) : Option String :=
  if text = "" then none
  else
    match medCandidates text with
    | [] =>
      match firstVocab (pyLower text) with
      | some p => some (if pyIsLower p then pyTitle p else p)
      | none => none
    | c :: cs => some (minByLen c cs)

def inferMedicationJson : Option Json → Option String
  | some (.str s) => inferMedication s
  | _ => none

/-- keyToTask embeds the key_to_task mapping with its "Medications"
default. -/
def keyToTask (key : String) : String :=
  if key = "fasting" then "Fasting"
  else if key = "bathing" then "Bath"
  else if key = "substance_use" then "Alcohol and Tobacco"
  else "Medications"

def computeStopJson (sd : SurgeryDetails) : Option Json → Option PyDateTime
  | some (.str s) => computeStopTimeDatetime sd s
  | _ => none

/-- processGeneral embeds the per-item body of the general-instruction
loop of generate_actions_from_json_one_by_one (the part after the model
response has been parsed into a JSON object): resolve the instruction
text first, fall back to the model-provided stop_time phrase, overwrite
stop_time with the isoformat of the chosen datetime when one resolved,
and for the Bath task infer a product name into the medication field. -/
def processGeneral (sd : SurgeryDetails) (key instruction : String) (parsed : JDict) : JDict :=
  let stPhrase := lookupField parsed "stop_time"
  let fallbackDt := computeStopTimeDatetime sd instruction
  let primaryDt := computeStopJson sd stPhrase
  let chosenDt := fallbackDt.orElse (fun _ => primaryDt)
  let p1 :=
    match chosenDt with
    | some dt => setObjField parsed "stop_time" (.str (isoformat dt))
    | none => parsed
  if keyToTask key = "Bath" then
    match (inferMedication instruction).orElse
        (fun _ => inferMedicationJson (lookupField p1 "note")) with
    | some product => setObjField p1 "medication" (.str product)
    | none => p1
  else p1

/-! Compliance auditor (src/LLM/src/compliance_checker.py). The model
calls are external; the embedding covers the processing of the audit
response for one item (_audit_item after the call, lines 173-201) and the
stamping loop of check_guideline_compliance (lines 252-259). Sections are
the dicts produced by the section collector; an item carries the
item_type, name and details values built by the caller. -/

structure CItem where
  itemType : Json
  name : Json
  details : Json

/-- parsedFields returns the fields of `_extract_json(response) or` the
empty dict. A truthy non-object parse makes parsed.get raise
AttributeError in Python; that propagating exception is the none case. -/
def parsedFields : Option Json → Option JDict
  | none => some []
  | some (.obj fs) => some fs
  | some v => if pyFalsy v then some [] else none

/-- compliantFlag is the is_compliant normalisation: a string value is
stripped, lower-cased and tested against true/yes/1, anything else goes
through bool(). -/
def compliantFlag (fs : JDict) : Bool :=
  match lookupField fs "is_compliant" with
  | some (.str s) =>
    pyLower (pyStrip s) = "true" || pyLower (pyStrip s) = "yes" || pyLower (pyStrip s) = "1"
  | some v => !pyFalsy v
  | none => false

def isObjJson : Json → Bool
  | .obj _ => true
  | _ => false

/-- wellFormedIssues keeps the dict entries of a nonempty issues list and
is empty in every other case. -/
def wellFormedIssues (fs : JDict) : List Json :=
  match lookupField fs "issues" with
  | some (.arr xs) => if xs.isEmpty then [] else xs.filter isObjJson
  | _ => []

/-- stampProvenance adds guideline_heading and guideline_page from the
first selected section to an issue that lacks them. -/
def stampProvenance (firstSection : JDict) (issue : Json) : Json :=
  match issue with
  | .obj ifs =>
    let ifs1 :=
      if hasField ifs "guideline_heading" then ifs
      else setObjField ifs "guideline_heading" ((lookupField firstSection "heading").getD .null)
    let ifs2 :=
      if hasField ifs1 "guideline_page" then ifs1
      else setObjField ifs1 "guideline_page" ((lookupField firstSection "page").getD .null)
    .obj ifs2
  | other => other

/-- auditIssues embeds the response processing of _audit_item: none when
Python would raise on a truthy non-dict parse, otherwise the issue list
returned for this item. -/
def auditIssues (parsed : Option Json) (selectedSections : List JDict) : Option (List Json) :=
  match parsedFields parsed with
  | none => none
  | some fs =>
    let filtered := wellFormedIssues fs
    if compliantFlag fs || filtered.isEmpty then some []
    else
      match selectedSections with
      | [] => some filtered
      | s1 :: _ => some (filtered.map (stampProvenance s1))

/-- flagEntries embeds the stamping loop of check_guideline_compliance:
each dict entry gets item_type and name defaults and old_entry is set to
the item's original details. -/
def flagEntries (item : CItem) (flagged : List Json) : List Json :=
  flagged.filterMap (fun e =>
    match e with
    | .obj fs =>
      some (.obj (setObjField
        (setDefaultField (setDefaultField fs "item_type" item.itemType) "name" item.name)
        "old_entry" item.details))
    | _ => none)

/-- itemFlags composes the audit path for one item: extract the response
JSON, process the audit result and stamp the flagged entries. -/
def itemFlags (item : CItem) (selectedSections : List JDict) (auditResponse : String) :
    Option (List Json) :=
  (auditIssues (extractJsonCC auditResponse) selectedSections).map (flagEntries item)

def lookupJ : Json → String → Option Json
  | .obj fs, k => lookupField fs k
  | _, _ => none

/-! Guideline extractor (src/LLM/src/guideline_extractor.py). A document
is modelled from the line level up: pages carry the line records that
build_lines produces (normalized text, vertical extent, average font
size, bold-character fraction). Heading extraction, level inference, the
consecutive-duplicate filter and section collection are embedded from the
source; the glyph clustering below the line level is not needed by any
claim. -/

structure LineRec where
  text : String
  yTop : ℚ
  yBottom : ℚ
  fontSizeAvg : Option ℚ
  boldFrac : ℚ
deriving DecidableEq

structure PageRec where
  height : ℚ
  lines : List LineRec
deriving DecidableEq

structure HeadingR where
  page : ℕ
  text : String
  fontSize : Option ℚ
  yTop : ℚ
  yBottom : ℚ
  level : Option ℕ
deriving DecidableEq

def insertAsc (x : ℚ) : List ℚ → List ℚ
  | [] => [x]
  | y :: ys => if x ≤ y then x :: y :: ys else y :: insertAsc x ys

def sortAscQ (l : List ℚ) : List ℚ := l.foldr insertAsc []

def insertDesc (x : ℚ) : List ℚ → List ℚ
  | [] => [x]
  | y :: ys => if y ≤ x then x :: y :: ys else y :: insertDesc x ys

def sortDescQ (l : List ℚ) : List ℚ := l.foldr insertDesc []

def dedupQ : List ℚ → List ℚ
  | [] => []
  | x :: xs => if (dedupQ xs).contains x then dedupQ xs else x :: dedupQ xs

/-- medianQ is statistics.median on a sorted copy; the empty case (on
which the Python library raises, unreachable for build_lines output whose
line tops strictly increase) is mapped to zero. -/
def medianQ (l : List ℚ) : ℚ :=
  let s := sortAscQ l
  let n := s.length
  if n = 0 then 0
  else if n % 2 = 1 then s.getD (n / 2) 0
  else (s.getD (n / 2 - 1) 0 + s.getD (n / 2) 0) / 2

/-- computeLineSpacing embeds compute_line_spacing: the median of the
positive gaps between consecutive line tops. -/
def computeLineSpacing (lines : List LineRec) : ℚ :=
  if lines.length < 2 then 0
  else
    let gaps := (lines.zip lines.tail).map (fun p => p.2.yTop - p.1.yTop)
    medianQ (gaps.filter (fun g => 0 < g))

/-- lvlFrom walks the band list from one-based index i and returns the
index of the first band within tolerance below the size, defaulting to
maxLevels. -/
def lvlFrom : List ℚ → ℕ → ℕ → ℚ → ℕ
  | [], _, maxLevels, _ => maxLevels
  | b :: rest, i, maxLevels, s => if b - 1 / 4 ≤ s then i else lvlFrom rest (i + 1) maxLevels s

def lvlOf (bands : List ℚ) (maxLevels : ℕ) : Option ℚ → ℕ
  | none => maxLevels
  | some s => lvlFrom bands 1 maxLevels s

/-- buildBands embeds the greedy band selection loop of infer_levels. -/
def buildBands (maxLevels : ℕ) : List ℚ → List ℚ → List ℚ
  | bands, [] => bands
  | bands, sz :: rest =>
    let bands2 :=
      if bands = [] ∨ bands.all (fun b => 1 / 2 < |sz - b|) then bands ++ [sz] else bands
    if maxLevels ≤ bands2.length then bands2 else buildBands maxLevels bands2 rest

def setLevel (h : HeadingR) (l : ℕ) : HeadingR :=
  { h with level := some l }

/-- inferLevels embeds infer_levels: collect the distinct font sizes in
descending order, build bands, and assign each heading its band index;
with no sizes at all every heading gets level two. -/
def inferLevels (headings : List HeadingR) (maxLevels : ℕ) : List HeadingR :=
  let sizes := sortDescQ (dedupQ (headings.filterMap (fun h => h.fontSize)))
  if sizes = [] then headings.map (fun h => setLevel h 2)
  else
    let bands := buildBands maxLevels [] sizes
    headings.map (fun h => setLevel h (lvlOf bands maxLevels h.fontSize))

structure ExtractParams where
  boldThreshold : ℚ
  ignoreHeaderFooter : Bool
  headerFrac : ℚ
  footerFrac : ℚ
  minLen : ℕ
  maxLen : ℕ
  maxLevels : ℕ
deriving DecidableEq

/-- lineToHeading embeds the per-line acceptance chain of
extract_bold_headings: length bounds, header/footer bands, bold fraction,
and the separation gate applied to every line after the first when the
median gap is positive. -/
def lineToHeading (P : ExtractParams) (pageno : ℕ) (pageH medianGap : ℚ)
    (lines : List LineRec) (i : ℕ) (ln : LineRec) : Option HeadingR :=
  if ¬(P.minLen ≤ ln.text.length ∧ ln.text.length ≤ P.maxLen) then none
  else if P.ignoreHeaderFooter ∧ ln.yTop < pageH * P.headerFrac then none
  else if P.ignoreHeaderFooter ∧ pageH * (1 - P.footerFrac) < ln.yBottom then none
  else if ln.boldFrac < P.boldThreshold then none
  else
    let separated : Bool :=
      if 0 < i ∧ 0 < medianGap then
        match lines[i - 1]? with
        | some prev => decide (medianGap * (11 / 10) ≤ ln.yTop - prev.yTop)
        | none => true
      else true
    if separated then some ⟨pageno, ln.text, ln.fontSizeAvg, ln.yTop, ln.yBottom, none⟩ else none

def acceptedOnPage (P : ExtractParams) (pageno : ℕ) (page : PageRec) : List HeadingR :=
  let mg := computeLineSpacing page.lines
  page.lines.enum.filterMap (fun p => lineToHeading P pageno page.height mg page.lines p.1 p.2)

/-- dedupConsec embeds the consecutive-duplicate filter keyed on
(page, text). -/
def dedupConsec : Option (ℕ × String) → List HeadingR → List HeadingR
  | _, [] => []
  | lastKey, h :: rest =>
    if some (h.page, h.text) = lastKey then dedupConsec (some (h.page, h.text)) rest
    else h :: dedupConsec (some (h.page, h.text)) rest

/-- extractBoldHeadings embeds extract_bold_headings over a line-level
document: accept candidate lines per page, infer levels when anything was
accepted, and drop consecutive duplicates. -/
def extractBoldHeadings (P : ExtractParams) (doc : List PageRec) : List HeadingR :=
  let out := doc.enum.flatMap (fun p => acceptedOnPage P (p.1 + 1) p.2)
  let out2 := if out = [] then out else inferLevels out P.maxLevels
  dedupConsec none out2

/-- clipLines models page.within_bbox over the vertical band: the lines
lying entirely between top and bottom. -/
def clipLines (page : PageRec) (top bottom : ℚ) : List LineRec :=
  page.lines.filter (fun ln => top ≤ ln.yTop ∧ ln.yBottom ≤ bottom)

def endPageOf (boundary : Option HeadingR) (pdf : List PageRec) : ℕ :=
  match boundary with | some b => b.page - 1 | none => pdf.length - 1

/-- chunkTop is the clamped top edge used by the page loop: one unit below
the heading bottom on the start page, the page top elsewhere. -/
def chunkTop (heading : HeadingR) (startPage pageIndex : ℕ) (pageH : ℚ) : ℚ :=
  max 0 (min (if pageIndex = startPage then heading.yBottom + 1 else 0) pageH)

/-- chunkBottom is the clamped bottom edge: one unit above the boundary
top on the final page of the span, the page bottom elsewhere. -/
def chunkBottom (boundary : Option HeadingR) (endPage pageIndex : ℕ) (pageH : ℚ) : ℚ :=
  max 0 (min
    (match boundary with
     | some b => if pageIndex = endPage then b.yTop - 1 else pageH
     | none => pageH) pageH)

/-- chunkLines embeds one iteration of the page loop of
collect_sections_for_level: the clipped lines contributed by the page at
pageIndex to the section of the given heading and boundary. -/
def chunkLines (pdf : List PageRec) (heading : HeadingR) (boundary : Option HeadingR)
    (pageIndex : ℕ) : List LineRec :=
  match pdf[pageIndex]? with
  | none => []
  | some page =>
    let top := chunkTop heading (heading.page - 1) pageIndex page.height
    let bottom := chunkBottom boundary (endPageOf boundary pdf) pageIndex page.height
    if bottom ≤ top then [] else clipLines page top bottom

/-- sectionContent joins the per-page chunk texts, stripping each chunk
and dropping empty chunks, as the Python collection loop does. -/
def sectionContent (pdf : List PageRec) (heading : HeadingR) (boundary : Option HeadingR) :
    String :=
  let startPage := heading.page - 1
  let endPage := match boundary with | some b => b.page - 1 | none => pdf.length - 1
  let chunks := (List.range (endPage + 1 - startPage)).map (fun k =>
    pyStrip (String.intercalate "\n"
      ((chunkLines pdf heading boundary (startPage + k)).map (fun l => l.text))))
  String.intercalate "\n" (chunks.filter (fun c => c ≠ ""))

structure SectionRec where
  heading : String
  page : ℕ
  level : Option ℕ
  content : String
deriving DecidableEq

/-- findBoundary returns the next heading whose level is present and at
or above the target level. -/
def findBoundary (targetLevel : ℕ) : List HeadingR → Option HeadingR
  | [] => none
  | h :: rest =>
    match h.level with
    | some l => if l ≤ targetLevel then some h else findBoundary targetLevel rest
    | none => findBoundary targetLevel rest

def headingKeyLE (a b : HeadingR) : Bool :=
  a.page < b.page || (a.page = b.page && a.yTop ≤ b.yTop)

def insertHeading (x : HeadingR) : List HeadingR → List HeadingR
  | [] => [x]
  | y :: ys => if headingKeyLE x y then x :: y :: ys else y :: insertHeading x ys

def sortHeadings (hs : List HeadingR) : List HeadingR := hs.foldr insertHeading []

def sectionsGo (pdf : List PageRec) (targetLevel : ℕ) : List HeadingR → List SectionRec
  | [] => []
  | h :: rest =>
    if h.level = some targetLevel then
      ⟨h.text, h.page, h.level, sectionContent pdf h (findBoundary targetLevel rest)⟩ ::
        sectionsGo pdf targetLevel rest
    else sectionsGo pdf targetLevel rest

/-- collectSectionsForLevel embeds collect_sections_for_level given an
already extracted heading list. -/
def collectSectionsForLevel (pdf : List PageRec) (headings : List HeadingR)
    (targetLevel : ℕ) : List SectionRec :=
  if headings = [] then []
  else sectionsGo pdf targetLevel (sortHeadings headings)

/-! Supporting lemmas. -/

theorem lookupField_map_set (fs : JDict) (k : String) (v : Json) :
    lookupField (fs.map (fun p => if p.1 = k then (k, v) else p)) k =
      if hasField fs k then some v else none := by
  induction fs with
  | nil => simp [lookupField, hasField]
  | cons p rest ih =>
    simp only [List.map_cons]
    by_cases h : p.1 = k
    · rw [if_pos h]
      simp [lookupField, hasField, h]
    · rw [if_neg h]
      simp only [lookupField, if_neg h, ih, hasField, List.any_cons, decide_eq_false h,
        Bool.false_or]

theorem lookupField_append_single (fs : JDict) (k : String) (v : Json)
    (h : hasField fs k = false) : lookupField (fs ++ [(k, v)]) k = some v := by
  induction fs with
  | nil => simp [lookupField]
  | cons p rest ih =>
    simp only [hasField, List.any_cons, Bool.or_eq_false_iff] at h
    have h1 : p.1 ≠ k := by
      intro he
      simp [he] at h
    simp only [List.cons_append, lookupField, if_neg h1]
    exact ih (by simpa [hasField] using h.2)

theorem lookupField_setObjField (fs : JDict) (k : String) (v : Json) :
    lookupField (setObjField fs k v) k = some v := by
  unfold setObjField
  by_cases h : hasField fs k
  · simp [h, lookupField_map_set]
  · simp only [h, if_false, Bool.false_eq_true]
    exact lookupField_append_single fs k v (by simpa using h)

/-! Claim C4: the spec asserts the Compliance Auditor and the Action
Generator share one tolerant JSON extraction policy with brace-depth
matching. The two implementations differ: the compliance_checker fallback
takes the substring up to the LAST closing brace (str.rfind) and only it
strips a leading json tag, while the bedrock_client fallback uses
brace-depth matching. -/

def c4Input : String := "\x7b\"a\": 1\x7d \x7d"

/-- C4 counterexample: on an object followed by a stray closing brace the
compliance extractor fails while the bedrock extractor succeeds, so the
two functions do not return the same result for every input string. -/
theorem C4_counterexample :
    extractJsonCC c4Input = none ∧
      extractJsonBR c4Input = some (Json.obj [("a", Json.num 1)]) ∧
      extractJsonCC c4Input ≠ extractJsonBR c4Input := by
  refine ⟨rfl, rfl, fun h => ?_⟩
  rw [show extractJsonCC c4Input = none from rfl,
    show extractJsonBR c4Input = some (Json.obj [("a", Json.num 1)]) from rfl] at h
  exact Option.noConfusion h

/-- C4 amended: the two extractors do share the front end, namely
whitespace stripping followed by a direct parse; on every input that is
not fence-wrapped and whose stripped form parses directly, both return
that parse. Their fallback behaviours differ as the counterexample
shows. -/
theorem C4_amended (s : String) (v : Json)
    (hfence : (startsWithS (pyStrip s) "```" && endsWithS (pyStrip s) "```") = false)
    (hv : pyLoads (pyStrip s) = some v) :
    extractJsonCC s = some v ∧ extractJsonBR s = some v := by
  have hs : s ≠ "" := by
    intro he
    rw [he, show pyLoads (pyStrip "") = none from rfl] at hv
    exact Option.noConfusion hv
  constructor
  · unfold extractJsonCC
    rw [if_neg hs]
    simp only [hfence, Bool.false_eq_true, if_false, hv]
  · unfold extractJsonBR
    simp only [hfence, Bool.false_eq_true, if_false, hv]

def c4Witness : String := " \x7b\"k\": 3\x7d "

/-- C4 witness: the amended theorem applied to a concrete non-fenced
directly-parsable input. -/
theorem C4_amended_witness :
    extractJsonCC c4Witness = some (Json.obj [("k", Json.num 3)]) ∧
      extractJsonBR c4Witness = some (Json.obj [("k", Json.num 3)]) :=
  C4_amended c4Witness (Json.obj [("k", Json.num 3)]) rfl rfl

/-! Claim C7: a compliance-indicating audit response, or one with no
well-formed issue objects, contributes nothing to flagged_items. -/

/-- C7: for every audited item, if the audit response object gives
is_compliant as boolean true or as one of the strings true, yes or 1, or
it contains no well-formed issue objects, then no entry for that item is
appended to flagged_items. -/
theorem C7_compliant_adds_nothing (item : CItem) (sections : List JDict) (resp : String)
    (fs : JDict) (hp : parsedFields (extractJsonCC resp) = some fs)
    (h : lookupField fs "is_compliant" = some (Json.bool true) ∨
      lookupField fs "is_compliant" = some (Json.str "true") ∨
      lookupField fs "is_compliant" = some (Json.str "yes") ∨
      lookupField fs "is_compliant" = some (Json.str "1") ∨
      wellFormedIssues fs = []) :
    itemFlags item sections resp = some [] := by
  have hflag : compliantFlag fs = true ∨ wellFormedIssues fs = [] := by
    rcases h with h | h | h | h | h
    · left
      unfold compliantFlag
      rw [h]
      rfl
    · left
      unfold compliantFlag
      rw [h]
      rfl
    · left
      unfold compliantFlag
      rw [h]
      rfl
    · left
      unfold compliantFlag
      rw [h]
      rfl
    · right
      exact h
  unfold itemFlags auditIssues
  rw [hp]
  rcases hflag with hc | hi
  · simp [hc, flagEntries]
  · simp [hi, flagEntries]

def c7Item : CItem :=
  ⟨Json.str "general_instruction", Json.str "fasting",
    Json.obj [("instruction", Json.str "Nothing after midnight")]⟩

def c7Sections : List JDict := [[("heading", Json.str "Fasting"), ("page", Json.num 2)]]

def c7Resp : String := "\x7b\"is_compliant\": \"yes\", \"issues\": [\x7b\"issue\": \"x\"\x7d]\x7d"

/-- C7 witness: the theorem applied to a concrete compliant response. -/
theorem C7_witness : itemFlags c7Item c7Sections c7Resp = some [] :=
  C7_compliant_adds_nothing c7Item c7Sections c7Resp
    [("is_compliant", Json.str "yes"), ("issues", Json.arr [Json.obj [("issue", Json.str "x")]])]
    rfl (Or.inr (Or.inr (Or.inl rfl)))

/-! Claim C2: the spec asserts every flagged entry carries both old_entry
and suggested_entry. The code always sets old_entry but never checks for
suggested_entry: an issue dict without one is flagged as is. -/

def c2Details : Json :=
  Json.obj [("medication", Json.str "Ibuprofen"), ("pre_op_action", Json.str "Continue")]

def c2Item : CItem := ⟨Json.str "medication", Json.str "Ibuprofen", c2Details⟩

def c2Sections : List JDict := [[("heading", Json.str "NSAIDs"), ("page", Json.num 5)]]

def c2Resp : String :=
  "\x7b\"is_compliant\": false, \"issues\": [\x7b\"issue\": \"Should hold\"\x7d]\x7d"

def c2Entry : Json :=
  Json.obj
    [("issue", Json.str "Should hold"),
     ("guideline_heading", Json.str "NSAIDs"),
     ("guideline_page", Json.num 5),
     ("item_type", Json.str "medication"),
     ("name", Json.str "Ibuprofen"),
     ("old_entry", c2Details)]

/-- C2 counterexample: a non-compliant response whose single issue object
lacks suggested_entry is appended to flagged_items without one, so a
flagged entry does not always contain suggested_entry. -/
theorem C2_counterexample :
    itemFlags c2Item c2Sections c2Resp = some [c2Entry] ∧
      lookupJ c2Entry "suggested_entry" = none ∧
      lookupJ c2Entry "old_entry" = some c2Details :=
  ⟨rfl, rfl, rfl⟩

/-- C2 amended: every entry appended to flagged_items carries old_entry
equal to the item's original details; a suggested_entry is present only
when the model's issue object itself supplied one, which the code does
not enforce. -/
theorem C2_amended (item : CItem) (sections : List JDict) (resp : String) (res : List Json)
    (hres : itemFlags item sections resp = some res) :
    ∀ e ∈ res, lookupJ e "old_entry" = some item.details := by
  intro e he
  unfold itemFlags at hres
  cases haud : auditIssues (extractJsonCC resp) sections with
  | none =>
    rw [haud] at hres
    exact absurd hres (by simp)
  | some flags =>
    rw [haud] at hres
    simp only [Option.map_some', Option.some.injEq] at hres
    rw [← hres] at he
    obtain ⟨src, hsrc, hmap⟩ := List.mem_filterMap.mp he
    cases src with
    | obj fs =>
      simp only [Option.some.injEq] at hmap
      rw [← hmap]
      simp [lookupJ, lookupField_setObjField]
    | null => exact absurd hmap (by simp)
    | bool b => exact absurd hmap (by simp)
    | num q => exact absurd hmap (by simp)
    | str s => exact absurd hmap (by simp)
    | arr xs => exact absurd hmap (by simp)

/-- C2 witness: the amended theorem applied at the counterexample input. -/
theorem C2_amended_witness : lookupJ c2Entry "old_entry" = some c2Item.details :=
  C2_amended c2Item c2Sections c2Resp [c2Entry] rfl c2Entry (List.mem_singleton.mpr rfl)

/-! Claim C9: the spec asserts the inferred bathing product is title-cased
only when the source instruction text is fully lower-case. The code tests
islower on the vocabulary entry instead, and every vocabulary entry is
lower-case, so the vocabulary branch always title-cases regardless of the
source casing. -/

def c9Source : String := "Hibiclens shower nightly"

/-- C9 counterexample: a source containing an upper-case letter still
yields the title-cased vocabulary name, not the name without
title-casing. -/
theorem C9_counterexample :
    inferMedication c9Source = some "Hibiclens" ∧
      pyIsLower c9Source = false ∧
      firstVocab (pyLower c9Source) = some "hibiclens" ∧
      "Hibiclens" ≠ "hibiclens" := by
  refine ⟨rfl, rfl, rfl, ?_⟩
  decide

/-- C9 amended: when the regex patterns produce no candidate and a known
product occurs in the lower-cased text, the result is the title-cased
vocabulary entry, irrespective of the casing of the source text (every
vocabulary entry is fully lower-case, so the islower test on it always
holds). -/
theorem C9_amended (t p : String) (h0 : t ≠ "") (hc : medCandidates t = [])
    (hv : firstVocab (pyLower t) = some p) :
    inferMedication t = some (pyTitle p) := by
  have hmem : p ∈ knownProducts := List.mem_of_find?_eq_some hv
  have hlow : pyIsLower p = true := by
    fin_cases hmem <;> rfl
  unfold inferMedication
  rw [if_neg h0, hc, hv]
  simp [hlow]

/-- C9 witness: the amended theorem applied to the counterexample source
text. -/
theorem C9_amended_witness : inferMedication c9Source = some "Hibiclens" :=
  C9_amended c9Source "hibiclens" (by decide) rfl rfl

/-! Claim C1: the spec asserts the general-instruction stop_time fallback
chain tries the model phrase first, the original instruction second, and
forces null on continue synonyms. The code computes
chosen_dt = fallback_dt or primary_dt, preferring the resolution of the
original instruction text over the model phrase, and that branch has no
continue-synonym forcing at all. -/

def exDetails : SurgeryDetails := ⟨some "2025-03-10", some "08:00"⟩

def c1Parsed : JDict :=
  [("task", Json.str "Fasting"), ("stop_time", Json.str "2 days before surgery"),
   ("note", Json.str "Stop eating soon")]

/-- C1: evaluation at the failing input. The model phrase resolves to
2025-03-08T08:00:00, but the code stores the resolution of the original
instruction text, 2025-03-05T08:00:00, showing the instruction is tried
first rather than the model phrase. -/
theorem C1_general_stop_time_eval :
    lookupField (processGeneral exDetails "fasting" "5 days before surgery" c1Parsed)
        "stop_time" = some (Json.str "2025-03-05T08:00:00") ∧
      (computeStopJson exDetails (some (Json.str "2 days before surgery"))).map isoformat
        = some "2025-03-08T08:00:00" ∧
      (computeStopTimeDatetime exDetails "5 days before surgery").map isoformat
        = some "2025-03-05T08:00:00" :=
  ⟨rfl, rfl, rfl⟩

/-! Claim C8: the days-before rule of the Time-Phrase Resolver. -/

/-- C8: whenever the lower-cased phrase matches the days pattern with a
group that _to_int converts (digits or a number word, including two-word
hyphenated compounds), the resolver returns the anchor minus that many
days. -/
theorem C8_days_before (sd : SurgeryDetails) (anchor : PyDateTime) (phrase tok : String)
    (n : ℕ) (hp : phrase ≠ "")
    (ha : parseSurgeryDatetime sd = some anchor)
    (hm : searchGroup daysTail (pyLower (pyStrip phrase)).toList = some tok)
    (hn : toIntTok tok = some n) :
    computeStopTimeDatetime sd phrase = some (subtractTime anchor (n : ℤ) 0 0) := by
  unfold computeStopTimeDatetime
  rw [if_neg hp]
  simp only [ha, hm, hn]

def exAnchor : PyDateTime := ⟨daysFromCivil 2025 3 10 * 1440 + 8 * 60⟩

/-- C8 witness: with the anchor parsed from 2025-03-10 08:00, the phrase
5 days before surgery resolves to the anchor minus five days, which is
the absolute datetime 2025-03-05T08:00:00. -/
theorem C8_witness :
    computeStopTimeDatetime exDetails "5 days before surgery" =
        some (subtractTime exAnchor 5 0 0) ∧
      isoformat (subtractTime exAnchor 5 0 0) = "2025-03-05T08:00:00" ∧
      parseSurgeryDatetime ⟨some "2025-03-05", some "08:00"⟩ = some (subtractTime exAnchor 5 0 0) :=
  ⟨C8_days_before exDetails exAnchor "5 days before surgery" "5" 5 (by decide) rfl rfl rfl,
    rfl, rfl⟩

/-! Lemmas about level inference and the heading pipeline. -/

theorem lvlFrom_ge (bands : List ℚ) (i m : ℕ) (s : ℚ) : min i m ≤ lvlFrom bands i m s := by
  induction bands generalizing i with
  | nil =>
    unfold lvlFrom
    omega
  | cons b rest ih =>
    unfold lvlFrom
    by_cases h : b - 1 / 4 ≤ s
    · rw [if_pos h]
      omega
    · rw [if_neg h]
      have h1 := ih (i + 1)
      omega

theorem lvlFrom_le (bands : List ℚ) (i m : ℕ) (s : ℚ)
    (hlen : bands.length + i ≤ m + 1) : lvlFrom bands i m s ≤ m := by
  induction bands generalizing i with
  | nil =>
    unfold lvlFrom
    omega
  | cons b rest ih =>
    simp only [List.length_cons] at hlen
    unfold lvlFrom
    by_cases h : b - 1 / 4 ≤ s
    · rw [if_pos h]
      omega
    · rw [if_neg h]
      exact ih (i + 1) (by omega)

theorem lvlFrom_mono (bands : List ℚ) (i m : ℕ) (s1 s2 : ℚ) (hle : s2 ≤ s1)
    (hlen : bands.length + i ≤ m + 1) :
    lvlFrom bands i m s1 ≤ lvlFrom bands i m s2 := by
  induction bands generalizing i with
  | nil =>
    unfold lvlFrom
    omega
  | cons b rest ih =>
    simp only [List.length_cons] at hlen
    unfold lvlFrom
    by_cases h2 : b - 1 / 4 ≤ s2
    · have h1 : b - 1 / 4 ≤ s1 := le_trans h2 hle
      rw [if_pos h1, if_pos h2]
    · by_cases h1 : b - 1 / 4 ≤ s1
      · rw [if_pos h1, if_neg h2]
        have hge := lvlFrom_ge rest (i + 1) m s2
        omega
      · rw [if_neg h1, if_neg h2]
        exact ih (i + 1) (by omega)

theorem buildBands_len (m : ℕ) (l : List ℚ) (bands : List ℚ)
    (hb : bands.length < m) : (buildBands m bands l).length ≤ m := by
  induction l generalizing bands with
  | nil => simpa [buildBands] using Nat.le_of_lt hb
  | cons sz rest ih =>
    simp only [buildBands]
    set bands2 := if bands = [] ∨ bands.all (fun b => 1 / 2 < |sz - b|) then bands ++ [sz]
      else bands with hb2
    have hlen2 : bands2.length ≤ bands.length + 1 := by
      rw [hb2]
      split
      · simp
      · simp
    by_cases hstop : m ≤ bands2.length
    · simp only [hstop, if_true]
      omega
    · simp only [hstop, if_false]
      exact ih bands2 (by omega)

theorem insertDesc_ne_nil (x : ℚ) (l : List ℚ) : insertDesc x l ≠ [] := by
  cases l with
  | nil => simp [insertDesc]
  | cons y ys =>
    simp only [insertDesc]
    split <;> simp

theorem sortDescQ_ne_nil (l : List ℚ) (h : l ≠ []) : sortDescQ l ≠ [] := by
  cases l with
  | nil => exact absurd rfl h
  | cons x xs => exact insertDesc_ne_nil x (sortDescQ xs)

theorem dedupQ_ne_nil (l : List ℚ) (h : l ≠ []) : dedupQ l ≠ [] := by
  cases l with
  | nil => exact absurd rfl h
  | cons x xs =>
    simp only [dedupQ]
    split
    · rename_i hc
      intro he
      rw [he] at hc
      simp [List.contains] at hc
    · simp

theorem mem_dedupConsec (h : HeadingR) (lastKey : Option (ℕ × String)) (l : List HeadingR)
    (hmem : h ∈ dedupConsec lastKey l) : h ∈ l := by
  induction l generalizing lastKey with
  | nil => simp [dedupConsec] at hmem
  | cons x rest ih =>
    simp only [dedupConsec] at hmem
    split at hmem
    · exact List.mem_cons_of_mem x (ih _ hmem)
    · rcases List.mem_cons.mp hmem with he | ht
      · exact he ▸ List.mem_cons_self x rest
      · exact List.mem_cons_of_mem x (ih _ ht)

/-- inferLevels_bounds: with at least two permitted levels every heading
assigned by inferLevels carries a level in the closed range one to
maxLevels. -/
theorem inferLevels_bounds (hs : List HeadingR) (m : ℕ) (hm : 2 ≤ m) :
    ∀ h ∈ inferLevels hs m,
      h.level.isSome = true ∧ 1 ≤ h.level.getD 0 ∧ h.level.getD 0 ≤ m := by
  intro h hmem
  simp only [inferLevels] at hmem
  split at hmem
  · obtain ⟨a, _, ha⟩ := List.mem_map.mp hmem
    rw [← ha]
    refine ⟨rfl, ?_, ?_⟩ <;> simp only [setLevel, Option.getD_some] <;> omega
  · obtain ⟨a, _, ha⟩ := List.mem_map.mp hmem
    rw [← ha]
    have hlen : (buildBands m []
        (sortDescQ (dedupQ (hs.filterMap (fun h => h.fontSize))))).length ≤ m :=
      buildBands_len m (sortDescQ (dedupQ (hs.filterMap (fun h => h.fontSize)))) []
        (by simp; omega)
    refine ⟨rfl, ?_, ?_⟩ <;> simp only [setLevel, Option.getD_some]
    · cases hfs : a.fontSize with
      | none =>
        simp only [lvlOf]
        omega
      | some s =>
        simp only [lvlOf]
        have := lvlFrom_ge
          (buildBands m [] (sortDescQ (dedupQ (hs.filterMap (fun h => h.fontSize))))) 1 m s
        omega
    · cases hfs : a.fontSize with
      | none => simp [lvlOf]
      | some s =>
        simp only [lvlOf]
        exact lvlFrom_le _ 1 m s (by omega)

/-! Claim C10: the claim asserts every extracted heading carries a level
in the closed range one to max_levels for every max_levels at least one.
When no accepted heading has a font size, infer_levels assigns the
constant level two, which falls outside the range when max_levels is
one. -/

def c10Doc : List PageRec := [⟨100, [⟨"Overview", 50, 52, none, 1⟩]⟩]

def c10Params : ExtractParams := ⟨3 / 5, true, 2 / 25, 2 / 25, 2, 140, 1⟩

def c10Heading : HeadingR := ⟨1, "Overview", none, 50, 52, some 2⟩

/-- C10 counterexample: with max_levels one and a document whose only
accepted heading has no font size, the returned heading carries level
two, which is outside the range one to max_levels. -/
theorem C10_counterexample :
    extractBoldHeadings c10Params c10Doc = [c10Heading] ∧
      c10Params.maxLevels = 1 ∧ ¬(c10Heading.level.getD 0 ≤ c10Params.maxLevels) :=
  ⟨rfl, rfl, by decide⟩

/-- C10 amended: for every max_levels at least two, every heading returned
by extract_bold_headings carries an inferred level between one and
max_levels inclusive, including headings with missing font sizes and
documents where no accepted heading has a font size; when max_levels is
one the all-sizes-missing document yields the out-of-range constant level
two. -/
theorem C10_amended (P : ExtractParams) (doc : List PageRec) (hm : 2 ≤ P.maxLevels) :
    ∀ h ∈ extractBoldHeadings P doc,
      h.level.isSome = true ∧ 1 ≤ h.level.getD 0 ∧ h.level.getD 0 ≤ P.maxLevels := by
  intro h hmem
  unfold extractBoldHeadings at hmem
  have hmem2 := mem_dedupConsec h none _ hmem
  split at hmem2
  · rename_i hout
    rw [hout] at hmem2
    simp at hmem2
  · exact inferLevels_bounds _ P.maxLevels hm h hmem2

def c10bParams : ExtractParams := ⟨3 / 5, true, 2 / 25, 2 / 25, 2, 140, 2⟩

/-- C10 witness: the amended theorem applied to the all-sizes-missing
document with max_levels two. -/
theorem C10_amended_witness :
    c10Heading.level.isSome = true ∧ 1 ≤ c10Heading.level.getD 0 ∧
      c10Heading.level.getD 0 ≤ c10bParams.maxLevels :=
  C10_amended c10bParams c10Doc (by decide) c10Heading (by decide)

/-! Claim C6: heading levels are monotone in font size. -/

/-- C6: for any two headings assigned by infer_levels from the same
document with at least one permitted level, the heading with the strictly
larger font size gets a level number less than or equal to the other
one. -/
theorem C6_level_monotone (hs : List HeadingR) (m : ℕ) (hm : 1 ≤ m)
    (h1 h2 : HeadingR) (hm1 : h1 ∈ inferLevels hs m) (hm2 : h2 ∈ inferLevels hs m)
    (s1 s2 : ℚ) (hs1 : h1.fontSize = some s1) (hs2 : h2.fontSize = some s2)
    (hlt : s2 < s1) :
    h1.level.getD m ≤ h2.level.getD m := by
  simp only [inferLevels] at hm1 hm2
  by_cases hsz : sortDescQ (dedupQ (hs.filterMap (fun h => h.fontSize))) = []
  · rw [if_pos hsz] at hm1
    obtain ⟨a, hamem, ha⟩ := List.mem_map.mp hm1
    have hafs : a.fontSize = some s1 := by
      rw [← ha] at hs1
      exact hs1
    have : s1 ∈ hs.filterMap (fun h => h.fontSize) :=
      List.mem_filterMap.mpr ⟨a, hamem, hafs⟩
    have hne : hs.filterMap (fun h => h.fontSize) ≠ [] := List.ne_nil_of_mem this
    exact absurd hsz (sortDescQ_ne_nil _ (dedupQ_ne_nil _ hne))
  · rw [if_neg hsz] at hm1 hm2
    obtain ⟨a, hamem, ha⟩ := List.mem_map.mp hm1
    obtain ⟨a2, hamem2, ha2⟩ := List.mem_map.mp hm2
    have hafs : a.fontSize = some s1 := by
      rw [← ha] at hs1
      exact hs1
    have hafs2 : a2.fontSize = some s2 := by
      rw [← ha2] at hs2
      exact hs2
    rw [← ha, ← ha2]
    simp only [setLevel, Option.getD_some, hafs, hafs2, lvlOf]
    apply lvlFrom_mono
    · exact le_of_lt hlt
    · have := buildBands_len m (sortDescQ (dedupQ (hs.filterMap (fun h => h.fontSize)))) []
        (by simp; omega)
      omega

def c6A : HeadingR := ⟨1, "Big Title", some 14, 20, 24, none⟩

def c6B : HeadingR := ⟨1, "Small Title", some 11, 60, 62, none⟩

/-- C6 witness: the theorem applied to two concrete headings of font
sizes fourteen and eleven, whose inferred levels are one and two. -/
theorem C6_witness :
    (setLevel c6A 1).level.getD 3 ≤ (setLevel c6B 2).level.getD 3 :=
  C6_level_monotone [c6A, c6B] 3 (by decide) (setLevel c6A 1) (setLevel c6B 2)
    (by decide) (by decide) 14 11 rfl rfl (by decide)

/-! Claim C3: the claim asserts a bold line meeting the length, band and
bold-fraction criteria is accepted regardless of its vertical gap to the
previous line. The code guards the append with the separated flag, so for
any line after the first on a page with positive median gap the
separation test is a hard filter, despite the inline comment calling it a
mild boost. -/

def c3Params : ExtractParams := ⟨3 / 5, true, 2 / 25, 2 / 25, 2, 140, 3⟩

def c3Line : LineRec := ⟨"Overview", 30, 32, some 12, 1⟩

def c3Lines : List LineRec :=
  [⟨"intro body text here", 20, 22, some 10, 0⟩, c3Line, ⟨"more body text", 40, 42, some 10, 0⟩]

def c3Doc : List PageRec := [⟨100, c3Lines⟩]

/-- C3: evaluation at the failing input. The bold line Overview satisfies
the length bounds, lies outside the header and footer bands and has bold
fraction one, yet extract_bold_headings returns no heading because its
gap to the previous line, ten, is below one point one times the median
gap, eleven. -/
theorem C3_separation_filter_eval :
    extractBoldHeadings c3Params c3Doc = [] ∧
      (c3Params.minLen ≤ c3Line.text.length ∧ c3Line.text.length ≤ c3Params.maxLen) ∧
      ¬(c3Line.yTop < 100 * c3Params.headerFrac) ∧
      ¬(100 * (1 - c3Params.footerFrac) < c3Line.yBottom) ∧
      c3Params.boldThreshold ≤ c3Line.boldFrac ∧
      computeLineSpacing c3Lines = 10 ∧
      c3Line.yTop - (⟨"intro body text here", 20, 22, some 10, 0⟩ : LineRec).yTop <
        computeLineSpacing c3Lines * (11 / 10) :=
  ⟨rfl, by decide, by decide, by decide, by decide, by decide, by decide⟩

/-- C3 amended: the separation signal is a mandatory filter, not a soft
boost: every line after the first of a page with positive median gap
whose gap to the previous line is below one point one times the median
gap yields no heading, whatever the other signals. -/
theorem C3_amended (P : ExtractParams) (pageno : ℕ) (pageH mg : ℚ) (lines : List LineRec)
    (i : ℕ) (ln prev : LineRec) (hi : 0 < i) (hmg : 0 < mg)
    (hprev : lines[i - 1]? = some prev)
    (hgap : ln.yTop - prev.yTop < mg * (11 / 10)) :
    lineToHeading P pageno pageH mg lines i ln = none := by
  unfold lineToHeading
  split_ifs with h1 h2 h3 h4
  any_goals rfl
  · rw [hprev]
    simp [not_le.mpr hgap]
  · rename_i hcond
    exact absurd ⟨hi, hmg⟩ hcond

/-- C3 witness for the amended theorem: the Overview line of the concrete
document is rejected. -/
theorem C3_amended_witness :
    lineToHeading c3Params 1 100 10 c3Lines 1 c3Line = none :=
  C3_amended c3Params 1 100 10 c3Lines 1 c3Line
    ⟨"intro body text here", 20, 22, some 10, 0⟩ (by decide) (by decide) rfl (by decide)

/-! Claim C5: section bodies exclude the heading's own line and the
boundary's line. -/

theorem chunkBottom_le_pageH (boundary : Option HeadingR) (ep i : ℕ) (H : ℚ) (hH : 0 ≤ H) :
    chunkBottom boundary ep i H ≤ H := by
  unfold chunkBottom
  exact max_le hH (min_le_right _ _)

theorem chunkTop_nonneg (heading : HeadingR) (sp i : ℕ) (H : ℚ) :
    0 ≤ chunkTop heading sp i H := le_max_left 0 _

theorem chunkTop_startPage (heading : HeadingR) (sp : ℕ) (H : ℚ) :
    chunkTop heading sp sp H = max 0 (min (heading.yBottom + 1) H) := by
  simp [chunkTop]

theorem chunkBottom_endPage (b : HeadingR) (ep : ℕ) (H : ℚ) :
    chunkBottom (some b) ep ep H = max 0 (min (b.yTop - 1) H) := by
  simp [chunkBottom]

/-- C5: for every heading and boundary pair, every line collected from
the start page lies at least one unit below the heading's bottom edge,
every line collected from the boundary's page ends at least one unit
above the boundary's top edge, and hence neither the heading's own line
nor the boundary's line is part of the collected section body. -/
theorem C5_section_bounds (pdf : List PageRec) (heading b : HeadingR)
    (h0 : 0 ≤ heading.yBottom) (hTB : heading.yTop ≤ heading.yBottom)
    (bTB : b.yTop ≤ b.yBottom)
    (hH : ∀ (i : ℕ) (p : PageRec), pdf[i]? = some p → 0 ≤ p.height) :
    (∀ ln ∈ chunkLines pdf heading (some b) (heading.page - 1),
        heading.yBottom + 1 ≤ ln.yTop) ∧
      (∀ ln ∈ chunkLines pdf heading (some b) (b.page - 1), ln.yBottom ≤ b.yTop - 1) ∧
      (∀ ln ∈ chunkLines pdf heading (some b) (heading.page - 1),
        ¬(ln.yTop = heading.yTop ∧ ln.yBottom = heading.yBottom)) ∧
      (∀ ln ∈ chunkLines pdf heading (some b) (b.page - 1),
        ¬(ln.yTop = b.yTop ∧ ln.yBottom = b.yBottom)) := by
  have part1 : ∀ ln ∈ chunkLines pdf heading (some b) (heading.page - 1),
      heading.yBottom + 1 ≤ ln.yTop := by
    intro ln hln
    cases hp : pdf[heading.page - 1]? with
    | none =>
      simp only [chunkLines, hp] at hln
      simp at hln
    | some page =>
      have hH0 : 0 ≤ page.height := hH (heading.page - 1) page hp
      simp only [chunkLines, hp] at hln
      split at hln
      · simp at hln
      · rename_i hbt
        rw [clipLines, List.mem_filter] at hln
        have hcond := of_decide_eq_true hln.2
        have htop := hcond.1
        rw [chunkTop_startPage] at htop hbt
        by_cases hcase : heading.yBottom + 1 ≤ page.height
        · rw [min_eq_left hcase, max_eq_right (by linarith)] at htop
          exact htop
        · exfalso
          rw [min_eq_right (by linarith), max_eq_right hH0] at hbt
          exact hbt (chunkBottom_le_pageH _ _ _ _ hH0)
  have part2 : ∀ ln ∈ chunkLines pdf heading (some b) (b.page - 1),
      ln.yBottom ≤ b.yTop - 1 := by
    intro ln hln
    cases hp : pdf[b.page - 1]? with
    | none =>
      simp only [chunkLines, hp] at hln
      simp at hln
    | some page =>
      simp only [chunkLines, hp] at hln
      split at hln
      · simp at hln
      · rename_i hbt
        rw [clipLines, List.mem_filter] at hln
        have hcond := of_decide_eq_true hln.2
        have hbot := hcond.2
        have hep : endPageOf (some b) pdf = b.page - 1 := rfl
        rw [hep, chunkBottom_endPage] at hbot hbt
        by_cases hcase : 0 ≤ min (b.yTop - 1) page.height
        · rw [max_eq_right hcase] at hbot
          exact le_trans hbot (min_le_left _ _)
        · exfalso
          rw [max_eq_left (by linarith)] at hbt
          exact hbt (chunkTop_nonneg _ _ _ _)
  refine ⟨part1, part2, ?_, ?_⟩
  · intro ln hln hcontra
    have := part1 ln hln
    rw [hcontra.1] at this
    linarith
  · intro ln hln hcontra
    have := part2 ln hln
    rw [hcontra.2] at this
    linarith

def c5BodyLine : LineRec := ⟨"Take ibuprofen guidance text", 20, 22, some 10, 0⟩

def c5Doc : List PageRec :=
  [⟨100, [⟨"Heading A", 10, 12, some 12, 1⟩, c5BodyLine, ⟨"Heading B", 40, 42, some 12, 1⟩]⟩]

def c5HeadA : HeadingR := ⟨1, "Heading A", some 12, 10, 12, some 2⟩

def c5HeadB : HeadingR := ⟨1, "Heading B", some 12, 40, 42, some 2⟩

theorem c5Doc_heights : ∀ (i : ℕ) (p : PageRec), c5Doc[i]? = some p → 0 ≤ p.height := by
  intro i p hp
  have hmem : p ∈ c5Doc := List.getElem?_mem hp
  simp only [c5Doc, List.mem_singleton] at hmem
  rw [hmem]
  decide

/-- C5 witness: the theorem applied to a one-page document; the collected
body line lies strictly between the heading and boundary edges. -/
theorem C5_witness :
    c5HeadA.yBottom + 1 ≤ c5BodyLine.yTop ∧ c5BodyLine.yBottom ≤ c5HeadB.yTop - 1 :=
  ⟨(C5_section_bounds c5Doc c5HeadA c5HeadB (by decide) (by decide) (by decide)
      c5Doc_heights).1 c5BodyLine (by decide),
    (C5_section_bounds c5Doc c5HeadA c5HeadB (by decide) (by decide) (by decide)
      c5Doc_heights).2.1 c5BodyLine (by decide)⟩
